import Mathlib

/-!
Shallow embedding of the Minecraft2D.py world model
(src/game/settings.py, src/game/block.py, src/game/world.py,
src/game/player.py) and proofs about it.

Conventions of the embedding:
* Python integers are `Int`; Python floor division `//` is `Int.fdiv`.
* Python's `math.sqrt(d) > 3` on a nonnegative integer `d` is modelled by
  the equivalent exact integer test `d > 9` (sqrt is monotone).
* The Bresenham error term `err` of `check_line_of_sight` starts at
  `dx / 2` (a Python float holding an integer or an exact half) and is only
  ever shifted by integers, so `2 * err` is always an integer; the embedding
  tracks `e2 = 2 * err` exactly.
* `random.randint(-1, 1)` is modelled by an arbitrary stream
  `rnd : Nat -> Int` of the drawn values (always within [-1, 1]).
* A Python dict keyed by coordinate pairs is modelled as a function
  `Int × Int -> Option Block`; dict insertion is pointwise update.
-/

namespace Mine2D

/-- settings.py: BLOCK_SIZE = 32. -/
def BLOCK_SIZE : Int := 32

/-- settings.py: WORLD_WIDTH = 100. -/
def WORLD_WIDTH : Int := 100

/-- settings.py: WORLD_HEIGHT = 50. -/
def WORLD_HEIGHT : Int := 50

/-- settings.py: PLAYER_SPEED = 5. -/
def PLAYER_SPEED : Int := 5

/-- settings.py: GRAVITY = 0.35, embedded as the rational 7/20. -/
def GRAVITY : ℚ := 7 / 20

/-- settings.py: JUMP_SPEED = -6. -/
def JUMP_SPEED : ℚ := -6

/-- settings.py: MAX_FALL_SPEED = 10. -/
def MAX_FALL_SPEED : ℚ := 10

/-- A pygame.Rect: integer position and size. -/
structure Rect where
  x : Int
  y : Int
  w : Int
  h : Int
  deriving DecidableEq

def Rect.left (r : Rect) : Int := r.x

def Rect.right (r : Rect) : Int := r.x + r.w

def Rect.top (r : Rect) : Int := r.y

def Rect.bottom (r : Rect) : Int := r.y + r.h

/-- pygame.Rect.centerx: `x + w // 2` (widths are nonnegative in all uses). -/
def Rect.centerx (r : Rect) : Int := r.x + r.w.fdiv 2

/-- pygame.Rect.centery: `y + h // 2`. -/
def Rect.centery (r : Rect) : Int := r.y + r.h.fdiv 2

/-- pygame.Rect.colliderect: strict overlap in both axes
(touching edges do not collide). -/
def rectsCollide (a b : Rect) : Bool :=
  decide (a.x < b.x + b.w) && decide (a.y < b.y + b.h) &&
  decide (a.x + a.w > b.x) && decide (a.y + a.h > b.y)

/-- block.py: a Block stores its grid coordinates, its type string and a
pixel rectangle derived from them at construction. The rectangle is a pure
function of the construction arguments, so the embedding recomputes it. -/
structure Block where
  x : Int
  y : Int
  block_type : String
  deriving DecidableEq

/-- block.py Block.__init__: `pygame.Rect(x*BLOCK_SIZE, y*BLOCK_SIZE,
BLOCK_SIZE, BLOCK_SIZE)`. -/
def Block.rect (b : Block) : Rect :=
  ⟨b.x * BLOCK_SIZE, b.y * BLOCK_SIZE, BLOCK_SIZE, BLOCK_SIZE⟩

/-- block.py Block.is_breakable: every type but bedrock is breakable. -/
def Block.is_breakable (b : Block) : Bool := b.block_type ≠ "bedrock"

/-- world.py: `self.blocks`, the sparse mapping from grid coordinates to
blocks, modelled as a function into `Option Block`. -/
structure World where
  blocks : Int × Int → Option Block

/-- `(x, y) in self.blocks` as a Bool. -/
def World.occupied (wd : World) (c : Int × Int) : Bool :=
  (wd.blocks c).isSome

/-- world.py World.get_block: `self.blocks.get((x, y))`. -/
def World.get_block (wd : World) (x y : Int) : Option Block :=
  wd.blocks (x, y)

/-- world.py generate_terrain, height walk: starting from
`WORLD_HEIGHT // 2`, each column adds the drawn step and clamps via
`max(WORLD_HEIGHT // 3, min(height, WORLD_HEIGHT - 10))`.
`heightAt rnd x` is `heights[x]`. -/
def heightAt (rnd : Nat → Int) : Nat → Int
  | 0 => max (WORLD_HEIGHT.fdiv 3) (min (WORLD_HEIGHT.fdiv 2 + rnd 0) (WORLD_HEIGHT - 10))
  | n + 1 => max (WORLD_HEIGHT.fdiv 3) (min (heightAt rnd n + rnd (n + 1)) (WORLD_HEIGHT - 10))

/-- world.py generate_terrain, block fill: for `x` in `range(WORLD_WIDTH)`,
`y` in `range(WORLD_HEIGHT)`: below the height value, stone when
`y < WORLD_HEIGHT - 5` else dirt; at the height value, grass; above, empty.
Cells outside the iterated domain are never inserted. -/
def terrainBlocks (rnd : Nat → Int) : Int × Int → Option Block := fun c =>
  if 0 ≤ c.1 ∧ c.1 < WORLD_WIDTH ∧ 0 ≤ c.2 ∧ c.2 < WORLD_HEIGHT then
    if c.2 > heightAt rnd c.1.toNat then
      if c.2 < WORLD_HEIGHT - 5 then some ⟨c.1, c.2, "stone"⟩
      else some ⟨c.1, c.2, "dirt"⟩
    else if c.2 = heightAt rnd c.1.toNat then some ⟨c.1, c.2, "grass"⟩
    else none
  else none

/-- world.py add_bedrock_borders: overwrite the bottom row
`(x, WORLD_HEIGHT-1)` for `x` in `range(WORLD_WIDTH)` and the side columns
`(0, y)`, `(WORLD_WIDTH-1, y)` for `y` in `range(WORLD_HEIGHT)` with
bedrock. -/
def addBedrockBorders (b : Int × Int → Option Block) : Int × Int → Option Block := fun c =>
  if (0 ≤ c.1 ∧ c.1 < WORLD_WIDTH ∧ c.2 = WORLD_HEIGHT - 1) ∨
     (0 ≤ c.2 ∧ c.2 < WORLD_HEIGHT ∧ (c.1 = 0 ∨ c.1 = WORLD_WIDTH - 1)) then
    some ⟨c.1, c.2, "bedrock"⟩
  else b c

/-- world.py World.__init__: empty mapping, then generate_terrain, then
add_bedrock_borders. -/
def worldInit (rnd : Nat → Int) : World :=
  ⟨addBedrockBorders (terrainBlocks rnd)⟩

/-- world.py check_line_of_sight, `dx > dy` branch. The loop
`while x != end_block_x` advances `x` by `step_x` each iteration, so with
`step_x` pointing from `start_block_x` toward `end_block_x` it runs exactly
`dx` iterations; the embedding uses `dx` as fuel, and the fuel-exhausted
base case coincides with the loop exit (`x = end_block_x` there).
`e2` tracks twice the float error term `err`, exactly. -/
def losGoX (wd : World) (ebx eby stepX stepY dy2 dx2 : Int) :
    Nat → Int → Int → Int → Bool
  | 0, _, _, _ => true
  | fuel + 1, x, y, e2 =>
    if x = ebx then true
    else if (x, y) ≠ (ebx, eby) ∧ wd.occupied (x, y) then false
    else
      let e2a := e2 - dy2
      if e2a < 0 then
        losGoX wd ebx eby stepX stepY dy2 dx2 fuel (x + stepX) (y + stepY) (e2a + dx2)
      else
        losGoX wd ebx eby stepX stepY dy2 dx2 fuel (x + stepX) y e2a

/-- world.py check_line_of_sight, `dx <= dy` branch (`while y != end_block_y`). -/
def losGoY (wd : World) (ebx eby stepX stepY dx2 dy2 : Int) :
    Nat → Int → Int → Int → Bool
  | 0, _, _, _ => true
  | fuel + 1, x, y, e2 =>
    if y = eby then true
    else if (x, y) ≠ (ebx, eby) ∧ wd.occupied (x, y) then false
    else
      let e2a := e2 - dx2
      if e2a < 0 then
        losGoY wd ebx eby stepX stepY dx2 dy2 fuel (x + stepX) (y + stepY) (e2a + dy2)
      else
        losGoY wd ebx eby stepX stepY dx2 dy2 fuel x (y + stepY) e2a

/-- The cells visited by the `dx > dy` walk (the cells the loop body runs
on), in order; this is pure geometry, independent of the world. -/
def losCellsX (ebx stepX stepY dy2 dx2 : Int) :
    Nat → Int → Int → Int → List (Int × Int)
  | 0, _, _, _ => []
  | fuel + 1, x, y, e2 =>
    if x = ebx then []
    else
      (x, y) ::
        (let e2a := e2 - dy2
         if e2a < 0 then
           losCellsX ebx stepX stepY dy2 dx2 fuel (x + stepX) (y + stepY) (e2a + dx2)
         else
           losCellsX ebx stepX stepY dy2 dx2 fuel (x + stepX) y e2a)

/-- The cells visited by the `dx <= dy` walk. -/
def losCellsY (eby stepX stepY dx2 dy2 : Int) :
    Nat → Int → Int → Int → List (Int × Int)
  | 0, _, _, _ => []
  | fuel + 1, x, y, e2 =>
    if y = eby then []
    else
      (x, y) ::
        (let e2a := e2 - dx2
         if e2a < 0 then
           losCellsY eby stepX stepY dx2 dy2 fuel (x + stepX) (y + stepY) (e2a + dy2)
         else
           losCellsY eby stepX stepY dx2 dy2 fuel x (y + stepY) e2a)

/-- world.py check_line_of_sight: grid conversion, Chebyshev-1 fast path,
then the Bresenham-style walk on the dominant axis. -/
def check_line_of_sight (wd : World) (sx sy ex ey : Int) : Bool :=
  let sbx := sx.fdiv BLOCK_SIZE
  let sby := sy.fdiv BLOCK_SIZE
  let ebx := ex.fdiv BLOCK_SIZE
  let eby := ey.fdiv BLOCK_SIZE
  if (sbx - ebx).natAbs ≤ 1 ∧ (sby - eby).natAbs ≤ 1 then true
  else
    let dx := (ebx - sbx).natAbs
    let dy := (eby - sby).natAbs
    let stepX : Int := if sbx < ebx then 1 else -1
    let stepY : Int := if sby < eby then 1 else -1
    if dy < dx then
      losGoX wd ebx eby stepX stepY (2 * (dy : Int)) (2 * (dx : Int)) dx sbx sby (dx : Int)
    else
      losGoY wd ebx eby stepX stepY (2 * (dx : Int)) (2 * (dy : Int)) dy sbx sby (dy : Int)

/-- The fast-path test of check_line_of_sight: the two grid cells are within
Chebyshev distance 1. -/
def chebAdj (sx sy ex ey : Int) : Bool :=
  decide ((sx.fdiv BLOCK_SIZE - ex.fdiv BLOCK_SIZE).natAbs ≤ 1) &&
  decide ((sy.fdiv BLOCK_SIZE - ey.fdiv BLOCK_SIZE).natAbs ≤ 1)

/-- The cells the stepping walk of check_line_of_sight visits (empty when
the fast path fires). -/
def losPath (sx sy ex ey : Int) : List (Int × Int) :=
  let sbx := sx.fdiv BLOCK_SIZE
  let sby := sy.fdiv BLOCK_SIZE
  let ebx := ex.fdiv BLOCK_SIZE
  let eby := ey.fdiv BLOCK_SIZE
  if (sbx - ebx).natAbs ≤ 1 ∧ (sby - eby).natAbs ≤ 1 then []
  else
    let dx := (ebx - sbx).natAbs
    let dy := (eby - sby).natAbs
    let stepX : Int := if sbx < ebx then 1 else -1
    let stepY : Int := if sby < eby then 1 else -1
    if dy < dx then
      losCellsX ebx stepX stepY (2 * (dy : Int)) (2 * (dx : Int)) dx sbx sby (dx : Int)
    else
      losCellsY eby stepX stepY (2 * (dx : Int)) (2 * (dy : Int)) dy sbx sby (dy : Int)

/-- world.py get_surface_height, scanning loop: `for y in range(WORLD_HEIGHT)`,
return the first `y` whose cell is occupied. -/
def scanCol (wd : World) (x : Int) : Nat → Nat → Option Nat
  | _, 0 => none
  | y, fuel + 1 =>
    if wd.occupied (x, (y : Int)) then some y else scanCol wd x (y + 1) fuel

/-- world.py get_surface_height: first occupied row of the column, or
`WORLD_HEIGHT // 2` when the scan finds none. -/
def get_surface_height (wd : World) (x : Int) : Int :=
  match scanCol wd x 0 WORLD_HEIGHT.toNat with
  | some y => (y : Int)
  | none => WORLD_HEIGHT.fdiv 2

/-- Python `range(a, b)` over integers (`a`, `b` come from max/min
clamping in check_collision). -/
def rangeInt (a b : Int) : List Int :=
  (List.range (b - a).toNat).map (fun i : Nat => a + (i : Int))

/-- world.py check_collision: clamp the rectangle's bounding box to the
world grid, then test every occupied cell's stored rectangle for overlap. -/
def check_collision (wd : World) (r : Rect) : Bool :=
  let startX := max 0 (r.left.fdiv BLOCK_SIZE)
  let endX := min WORLD_WIDTH (r.right.fdiv BLOCK_SIZE + 1)
  let startY := max 0 (r.top.fdiv BLOCK_SIZE)
  let endY := min WORLD_HEIGHT (r.bottom.fdiv BLOCK_SIZE + 1)
  (rangeInt startX endX).any fun x =>
    (rangeInt startY endY).any fun y =>
      match wd.blocks (x, y) with
      | some b => rectsCollide r b.rect
      | none => false

/-- world.py has_adjacent_block: any of the 8 neighbours occupied. -/
def has_adjacent_block (wd : World) (x y : Int) : Bool :=
  [(x + 1, y), (x - 1, y), (x, y + 1), (x, y - 1),
   (x + 1, y + 1), (x - 1, y + 1), (x + 1, y - 1), (x - 1, y - 1)].any
    (fun c => wd.occupied c)

/-- world.py would_collide_with_player: the candidate block's rectangle
against the player's rectangle. -/
def would_collide_with_player (block_x block_y : Int) (player_rect : Rect) : Bool :=
  rectsCollide
    ⟨block_x * BLOCK_SIZE, block_y * BLOCK_SIZE, BLOCK_SIZE, BLOCK_SIZE⟩
    player_rect

/-- world.py break_block. `math.sqrt(d2) > 3` on the nonnegative integer
`d2` is embedded as the equivalent `d2 > 9`. -/
def break_block (wd : World) (pos player_pos : Int × Int) : World :=
  let block_x := pos.1.fdiv BLOCK_SIZE
  let block_y := pos.2.fdiv BLOCK_SIZE
  match wd.blocks (block_x, block_y) with
  | none => wd
  | some b =>
    if ¬ b.is_breakable then wd
    else
      let pbx := player_pos.1.fdiv BLOCK_SIZE
      let pby := player_pos.2.fdiv BLOCK_SIZE
      if (block_x - pbx) ^ 2 + (block_y - pby) ^ 2 > 9 then wd
      else if ¬ check_line_of_sight wd player_pos.1 player_pos.2
          (block_x * BLOCK_SIZE + BLOCK_SIZE.fdiv 2)
          (block_y * BLOCK_SIZE + BLOCK_SIZE.fdiv 2) then wd
      else ⟨fun c => if c = (block_x, block_y) then none else wd.blocks c⟩

/-- world.py place_block. Python packs the target point and the player's
rectangle into one tuple `pos`; the embedding passes them separately. -/
def place_block (wd : World) (pos : Int × Int) (player_rect : Rect)
    (block_type : String) : World :=
  let block_x := pos.1.fdiv BLOCK_SIZE
  let block_y := pos.2.fdiv BLOCK_SIZE
  if wd.occupied (block_x, block_y) then wd
  else if ¬ has_adjacent_block wd block_x block_y then wd
  else if would_collide_with_player block_x block_y player_rect then wd
  else
    let pbx := player_rect.centerx.fdiv BLOCK_SIZE
    let pby := player_rect.centery.fdiv BLOCK_SIZE
    if (block_x - pbx) ^ 2 + (block_y - pby) ^ 2 > 9 then wd
    else if ¬ check_line_of_sight wd player_rect.centerx player_rect.centery
        (block_x * BLOCK_SIZE + BLOCK_SIZE.fdiv 2)
        (block_y * BLOCK_SIZE + BLOCK_SIZE.fdiv 2) then wd
    else ⟨fun c => if c = (block_x, block_y) then some ⟨block_x, block_y, block_type⟩
                   else wd.blocks c⟩

/-- A mutating call against the world: main.py issues break_block on left
click and place_block on right click. -/
inductive Op where
  | brk (pos player_pos : Int × Int)
  | plc (pos : Int × Int) (player_rect : Rect) (block_type : String)

def applyOp (wd : World) : Op → World
  | .brk pos pp => break_block wd pos pp
  | .plc pos r t => place_block wd pos r t

def applyOps (wd : World) (ops : List Op) : World := ops.foldl applyOp wd

/-- World states arising from construction followed by any sequence of
break_block / place_block calls with arbitrary arguments. -/
def Reachable (wd : World) : Prop :=
  ∃ rnd : Nat → Int, ∃ ops : List Op, wd = applyOps (worldInit rnd) ops

/-! ## Player (src/game/player.py) -/

/-- The keyboard state Player.update reads: left (LEFT or a), right
(RIGHT or d), jump (SPACE or UP). -/
structure Keys where
  left : Bool
  right : Bool
  jump : Bool

/-- player.py Player state: spawn point, pixel rectangle, velocities,
ground flag, facing flag, selected block type. `velocity_y` is a Python
float accumulating GRAVITY = 0.35; the embedding uses exact rationals. -/
structure PlayerState where
  spawn_x : Int
  spawn_y : Int
  rect : Rect
  velocity_x : Int
  velocity_y : ℚ
  on_ground : Bool
  facing_right : Bool
  selected_block : String

/-- Python `int(v)` on a float: truncation toward zero. -/
def pyInt (v : ℚ) : Int := if 0 ≤ v then ⌊v⌋ else -⌊-v⌋

/-- player.py respawn: reset position to spawn, zero both velocities. -/
def respawn (p : PlayerState) : PlayerState :=
  { p with rect := { p.rect with x := p.spawn_x, y := p.spawn_y },
           velocity_x := 0, velocity_y := 0 }

/-- player.py check_ground: probe the world with the rectangle shifted down
by one pixel. -/
def check_ground (wd : World) (p : PlayerState) : Bool :=
  check_collision wd { p.rect with y := p.rect.y + 1 }

/-- player.py update, vertical sub-stepping: move one pixel at a time; on
the first colliding step revert that pixel and zero the vertical velocity. -/
def vstep (wd : World) (s : Int) : Nat → Rect → ℚ → Rect × ℚ
  | 0, r, v => (r, v)
  | n + 1, r, v =>
    let r1 := { r with y := r.y + s }
    if check_collision wd r1 then ({ r1 with y := r1.y - s }, 0)
    else vstep wd s n r1 v

/-- player.py update, everything before the final void check: input,
ground probe, jump, gravity, horizontal move with full revert on collision,
vertical pixel-stepping. -/
def updateMoved (wd : World) (keys : Keys) (p : PlayerState) : PlayerState :=
  let vx : Int := if keys.right then PLAYER_SPEED
                  else if keys.left then -PLAYER_SPEED else 0
  let facing := if keys.right then true
                else if keys.left then false else p.facing_right
  let onG := check_ground wd p
  let vy1 : ℚ := if keys.jump ∧ onG then JUMP_SPEED else p.velocity_y
  let onG1 : Bool := if keys.jump ∧ onG then false else onG
  let vy2 : ℚ := if ¬ onG1 then min (vy1 + GRAVITY) MAX_FALL_SPEED else vy1
  let rect1 := { p.rect with x := p.rect.x + vx }
  let rect2 := if check_collision wd rect1 then { rect1 with x := rect1.x - vx }
               else rect1
  let moved := if vy2 ≠ 0 then
                 vstep wd (if vy2 > 0 then 1 else -1) (pyInt vy2).natAbs rect2 vy2
               else (rect2, vy2)
  { p with rect := moved.1, velocity_x := vx, velocity_y := moved.2,
           on_ground := onG1, facing_right := facing }

/-- player.py update: the movement phase followed by the void check
`if self.rect.y > WORLD_HEIGHT * BLOCK_SIZE: self.respawn()`. -/
def Player.update (wd : World) (keys : Keys) (p : PlayerState) : PlayerState :=
  let p1 := updateMoved wd keys p
  if p1.rect.y > WORLD_HEIGHT * BLOCK_SIZE then respawn p1 else p1

/-! ## Concrete instances used by counterexamples and witnesses -/

/-- A possible draw sequence of `random.randint(-1, 1)`: all zeros. The
resulting height map is constantly 25. -/
def zeroRnd : Nat → Int := fun _ => 0

/-- The world right after construction with the all-zero draw sequence. -/
def w0 : World := worldInit zeroRnd

/-- A player rectangle whose center (16, 144) lies in grid cell (0, 4). -/
def rectC04 : Rect := ⟨8, 128, 16, 32⟩

/-- One place_block call on `w0` targeting pixel point (-20, 165), i.e.
grid cell (-1, 5): outside the world domain, yet accepted because the
neighbouring border cell (0, 5) is bedrock and no bounds check exists. -/
def w1 : World := applyOps (worldInit zeroRnd) [Op.plc (-20, 165) rectC04 "dirt"]

/-- A player rectangle whose center (16, 16) lies in grid cell (0, 0). -/
def rectC00 : Rect := ⟨8, 8, 16, 16⟩

/-- One place_block call on `w0` targeting pixel point (33, -20), i.e.
grid cell (1, -1): above the world, accepted via the bedrock corner (0, 0). -/
def wNegY : World := applyOps (worldInit zeroRnd) [Op.plc (33, -20) rectC00 "dirt"]

/-- Player state used for the fall-out witness: already far below the
world, at rest, with spawn point (10, 20). -/
def pDeep : PlayerState := ⟨10, 20, ⟨500, 2000, 38, 83⟩, 0, 0, false, true, "dirt"⟩

/-- No key pressed. -/
def keysNone : Keys := ⟨false, false, false⟩

/-! ## Helper lemmas -/

theorem all_congr_mem {α : Type} {l : List α} {f g : α → Bool}
    (h : ∀ a ∈ l, f a = g a) : l.all f = l.all g := by
  induction l with
  | nil => rfl
  | cons a t ih =>
    simp only [List.all_cons]
    rw [h a (by simp), ih (fun b hb => h b (by simp [hb]))]

theorem losCellsX_fst_ne (ebx stepX stepY dy2 dx2 : Int) :
    ∀ fuel x y e2 c, c ∈ losCellsX ebx stepX stepY dy2 dx2 fuel x y e2 →
      c.1 ≠ ebx := by
  intro fuel
  induction fuel with
  | zero => intro x y e2 c hc; simp [losCellsX] at hc
  | succ n ih =>
    intro x y e2 c hc
    simp only [losCellsX] at hc
    by_cases hx : x = ebx
    · simp [hx] at hc
    · rw [if_neg hx] at hc
      rcases List.mem_cons.mp hc with h | h
      · subst h; exact hx
      · by_cases he : e2 - dy2 < 0
        · rw [if_pos he] at h; exact ih _ _ _ _ h
        · rw [if_neg he] at h; exact ih _ _ _ _ h

theorem losCellsY_snd_ne (eby stepX stepY dx2 dy2 : Int) :
    ∀ fuel x y e2 c, c ∈ losCellsY eby stepX stepY dx2 dy2 fuel x y e2 →
      c.2 ≠ eby := by
  intro fuel
  induction fuel with
  | zero => intro x y e2 c hc; simp [losCellsY] at hc
  | succ n ih =>
    intro x y e2 c hc
    simp only [losCellsY] at hc
    by_cases hy : y = eby
    · simp [hy] at hc
    · rw [if_neg hy] at hc
      rcases List.mem_cons.mp hc with h | h
      · subst h; exact hy
      · by_cases he : e2 - dx2 < 0
        · rw [if_pos he] at h; exact ih _ _ _ _ h
        · rw [if_neg he] at h; exact ih _ _ _ _ h

theorem losGoX_eq_all (wd : World) (ebx eby stepX stepY dy2 dx2 : Int) :
    ∀ fuel x y e2,
      losGoX wd ebx eby stepX stepY dy2 dx2 fuel x y e2 =
      (losCellsX ebx stepX stepY dy2 dx2 fuel x y e2).all
        (fun c => !(decide (c ≠ (ebx, eby)) && wd.occupied c)) := by
  intro fuel
  induction fuel with
  | zero => intro x y e2; rfl
  | succ n ih =>
    intro x y e2
    simp only [losGoX, losCellsX]
    by_cases hx : x = ebx
    · simp [hx]
    · rw [if_neg hx, if_neg hx]
      by_cases hocc : (x, y) ≠ (ebx, eby) ∧ wd.occupied (x, y)
      · rw [if_pos hocc]
        simp only [List.all_cons]
        rw [decide_eq_true hocc.1, hocc.2]
        rfl
      · rw [if_neg hocc]
        have hhead : (!(decide ((x, y) ≠ (ebx, eby)) && wd.occupied (x, y))) = true := by
          by_cases hne : (x, y) = (ebx, eby)
          · simp [hne]
          · have : wd.occupied (x, y) = false := by
              rcases Bool.eq_false_or_eq_true (wd.occupied (x, y)) with h | h
              · exact absurd ⟨hne, h⟩ hocc
              · exact h
            simp [this]
        simp only [List.all_cons, hhead, Bool.true_and]
        by_cases he : e2 - dy2 < 0
        · rw [if_pos he, if_pos he, ih]
        · rw [if_neg he, if_neg he, ih]

theorem losGoY_eq_all (wd : World) (ebx eby stepX stepY dx2 dy2 : Int) :
    ∀ fuel x y e2,
      losGoY wd ebx eby stepX stepY dx2 dy2 fuel x y e2 =
      (losCellsY eby stepX stepY dx2 dy2 fuel x y e2).all
        (fun c => !(decide (c ≠ (ebx, eby)) && wd.occupied c)) := by
  intro fuel
  induction fuel with
  | zero => intro x y e2; rfl
  | succ n ih =>
    intro x y e2
    simp only [losGoY, losCellsY]
    by_cases hy : y = eby
    · simp [hy]
    · rw [if_neg hy, if_neg hy]
      by_cases hocc : (x, y) ≠ (ebx, eby) ∧ wd.occupied (x, y)
      · rw [if_pos hocc]
        simp only [List.all_cons]
        rw [decide_eq_true hocc.1, hocc.2]
        rfl
      · rw [if_neg hocc]
        have hhead : (!(decide ((x, y) ≠ (ebx, eby)) && wd.occupied (x, y))) = true := by
          by_cases hne : (x, y) = (ebx, eby)
          · simp [hne]
          · have : wd.occupied (x, y) = false := by
              rcases Bool.eq_false_or_eq_true (wd.occupied (x, y)) with h | h
              · exact absurd ⟨hne, h⟩ hocc
              · exact h
            simp [this]
        simp only [List.all_cons, hhead, Bool.true_and]
        by_cases he : e2 - dx2 < 0
        · rw [if_pos he, if_pos he, ih]
        · rw [if_neg he, if_neg he, ih]

/-- check_line_of_sight equals: fast path, or every cell visited by the
stepping walk is unoccupied. The walk path is pure geometry. -/
theorem los_check_eq (wd : World) (sx sy ex ey : Int) :
    check_line_of_sight wd sx sy ex ey =
    (chebAdj sx sy ex ey || (losPath sx sy ex ey).all (fun c => !wd.occupied c)) := by
  simp only [check_line_of_sight, losPath, chebAdj]
  by_cases hf : (sx.fdiv BLOCK_SIZE - ex.fdiv BLOCK_SIZE).natAbs ≤ 1 ∧
      (sy.fdiv BLOCK_SIZE - ey.fdiv BLOCK_SIZE).natAbs ≤ 1
  · rw [if_pos hf, if_pos hf, decide_eq_true hf.1, decide_eq_true hf.2]
    rfl
  · rw [if_neg hf, if_neg hf]
    have hch : (decide ((sx.fdiv BLOCK_SIZE - ex.fdiv BLOCK_SIZE).natAbs ≤ 1) &&
        decide ((sy.fdiv BLOCK_SIZE - ey.fdiv BLOCK_SIZE).natAbs ≤ 1)) = false := by
      rw [← Bool.decide_and]
      exact decide_eq_false hf
    rw [hch, Bool.false_or]
    by_cases hd : ((ey.fdiv BLOCK_SIZE - sy.fdiv BLOCK_SIZE).natAbs <
        (ex.fdiv BLOCK_SIZE - sx.fdiv BLOCK_SIZE).natAbs)
    · rw [if_pos hd, if_pos hd, losGoX_eq_all]
      apply all_congr_mem
      intro c hc
      have hne : c ≠ (ex.fdiv BLOCK_SIZE, ey.fdiv BLOCK_SIZE) := by
        intro hceq
        exact losCellsX_fst_ne _ _ _ _ _ _ _ _ _ _ hc (by rw [hceq])
      rw [decide_eq_true hne, Bool.true_and]
    · rw [if_neg hd, if_neg hd, losGoY_eq_all]
      apply all_congr_mem
      intro c hc
      have hne : c ≠ (ex.fdiv BLOCK_SIZE, ey.fdiv BLOCK_SIZE) := by
        intro hceq
        exact losCellsY_snd_ne _ _ _ _ _ _ _ _ _ _ hc (by rw [hceq])
      rw [decide_eq_true hne, Bool.true_and]

/-- break_block either returns the world unchanged or, when the target cell
held a breakable block, removes exactly that entry. -/
theorem break_block_cases (wd : World) (pos pp : Int × Int) :
    break_block wd pos pp = wd ∨
    ∃ b, wd.blocks (pos.1.fdiv BLOCK_SIZE, pos.2.fdiv BLOCK_SIZE) = some b ∧
      b.is_breakable = true ∧
      ¬ ((pos.1.fdiv BLOCK_SIZE - pp.1.fdiv BLOCK_SIZE) ^ 2 +
         (pos.2.fdiv BLOCK_SIZE - pp.2.fdiv BLOCK_SIZE) ^ 2 > 9) ∧
      check_line_of_sight wd pp.1 pp.2
        (pos.1.fdiv BLOCK_SIZE * BLOCK_SIZE + BLOCK_SIZE.fdiv 2)
        (pos.2.fdiv BLOCK_SIZE * BLOCK_SIZE + BLOCK_SIZE.fdiv 2) = true ∧
      break_block wd pos pp =
        ⟨fun c => if c = (pos.1.fdiv BLOCK_SIZE, pos.2.fdiv BLOCK_SIZE) then none
                  else wd.blocks c⟩ := by
  simp only [break_block]
  split
  · exact Or.inl rfl
  · rename_i b hb
    split
    · exact Or.inl rfl
    · rename_i hbr
      split
      · exact Or.inl rfl
      · rename_i hdist
        split
        · exact Or.inl rfl
        · rename_i hlos
          exact Or.inr ⟨b, hb, not_not.mp hbr, hdist, not_not.mp hlos, rfl⟩

/-- place_block either returns the world unchanged or, when the target cell
was empty (and all checks passed), inserts exactly one new block there. -/
theorem place_block_cases (wd : World) (pos : Int × Int) (pr : Rect) (ty : String) :
    place_block wd pos pr ty = wd ∨
    (wd.blocks (pos.1.fdiv BLOCK_SIZE, pos.2.fdiv BLOCK_SIZE) = none ∧
      has_adjacent_block wd (pos.1.fdiv BLOCK_SIZE) (pos.2.fdiv BLOCK_SIZE) = true ∧
      would_collide_with_player (pos.1.fdiv BLOCK_SIZE) (pos.2.fdiv BLOCK_SIZE) pr = false ∧
      place_block wd pos pr ty =
        ⟨fun c => if c = (pos.1.fdiv BLOCK_SIZE, pos.2.fdiv BLOCK_SIZE) then
                    some ⟨pos.1.fdiv BLOCK_SIZE, pos.2.fdiv BLOCK_SIZE, ty⟩
                  else wd.blocks c⟩) := by
  simp only [place_block]
  split
  · exact Or.inl rfl
  · rename_i hocc
    have hnone : wd.blocks (pos.1.fdiv BLOCK_SIZE, pos.2.fdiv BLOCK_SIZE) = none :=
      Option.not_isSome_iff_eq_none.mp (by simpa only [World.occupied] using hocc)
    split
    · exact Or.inl rfl
    · rename_i hadj
      split
      · exact Or.inl rfl
      · rename_i hcol
        split
        · exact Or.inl rfl
        · split
          · exact Or.inl rfl
          · exact Or.inr ⟨hnone, not_not.mp hadj, Bool.eq_false_iff.mpr hcol, rfl⟩

/-- Invariant induction principle over reachable states. -/
theorem reachable_rec {P : World → Prop}
    (hinit : ∀ rnd, P (worldInit rnd))
    (hstep : ∀ wd op, P wd → P (applyOp wd op)) :
    ∀ wd, Reachable wd → P wd := by
  rintro wd ⟨rnd, ops, rfl⟩
  suffices h : ∀ (l : List Op) (w : World), P w → P (applyOps w l) by
    exact h ops (worldInit rnd) (hinit rnd)
  intro l
  induction l with
  | nil => intro w hw; exact hw
  | cons o t ih => intro w hw; exact ih (applyOp w o) (hstep w o hw)

/-- Border cells (left column, right column, bottom row, within the domain)
always hold the exact bedrock block placed by add_bedrock_borders. -/
def BorderInv (wd : World) : Prop :=
  ∀ x y : Int, 0 ≤ x → x < WORLD_WIDTH → 0 ≤ y → y < WORLD_HEIGHT →
    (x = 0 ∨ x = WORLD_WIDTH - 1 ∨ y = WORLD_HEIGHT - 1) →
    wd.blocks (x, y) = some ⟨x, y, "bedrock"⟩

theorem borderInv_init (rnd : Nat → Int) : BorderInv (worldInit rnd) := by
  intro x y hx0 hxW hy0 hyH hb
  simp only [worldInit, addBedrockBorders]
  rw [if_pos]
  rcases hb with h | h | h
  · exact Or.inr ⟨hy0, hyH, Or.inl h⟩
  · exact Or.inr ⟨hy0, hyH, Or.inr h⟩
  · exact Or.inl ⟨hx0, hxW, h⟩

theorem borderInv_step (wd : World) (op : Op) (h : BorderInv wd) :
    BorderInv (applyOp wd op) := by
  cases op with
  | brk pos pp =>
    rcases break_block_cases wd pos pp with heq | ⟨b, hb, hbr, hd2, hls, heq⟩
    · simpa only [applyOp, heq] using h
    · intro x y hx0 hxW hy0 hyH hbord
      simp only [applyOp, heq]
      by_cases hc : ((x, y) : Int × Int) = (pos.1.fdiv BLOCK_SIZE, pos.2.fdiv BLOCK_SIZE)
      · exfalso
        have hxy := h x y hx0 hxW hy0 hyH hbord
        rw [← hc] at hb
        rw [hxy] at hb
        have hbed : b = ⟨x, y, "bedrock"⟩ := (Option.some_injective _ hb).symm
        rw [hbed] at hbr
        simp [Block.is_breakable] at hbr
      · simp only [if_neg hc]
        exact h x y hx0 hxW hy0 hyH hbord
  | plc pos pr ty =>
    rcases place_block_cases wd pos pr ty with heq | ⟨hnone, hadj1, hcol1, heq⟩
    · simpa only [applyOp, heq] using h
    · intro x y hx0 hxW hy0 hyH hbord
      simp only [applyOp, heq]
      by_cases hc : ((x, y) : Int × Int) = (pos.1.fdiv BLOCK_SIZE, pos.2.fdiv BLOCK_SIZE)
      · exfalso
        have hxy := h x y hx0 hxW hy0 hyH hbord
        rw [← hc] at hnone
        rw [hxy] at hnone
        exact Option.some_ne_none _ hnone
      · simp only [if_neg hc]
        exact h x y hx0 hxW hy0 hyH hbord

theorem borderInv_reachable (wd : World) (h : Reachable wd) : BorderInv wd :=
  reachable_rec borderInv_init borderInv_step wd h

/-- Every stored block records the coordinates of the cell holding it. -/
def KeyInv (wd : World) : Prop :=
  ∀ c : Int × Int, ∀ b : Block, wd.blocks c = some b → b.x = c.1 ∧ b.y = c.2

theorem keyInv_init (rnd : Nat → Int) : KeyInv (worldInit rnd) := by
  intro c b hb
  simp only [worldInit, addBedrockBorders, terrainBlocks] at hb
  split at hb
  · cases hb; exact ⟨rfl, rfl⟩
  · split at hb
    · split at hb
      · split at hb
        · cases hb; exact ⟨rfl, rfl⟩
        · cases hb; exact ⟨rfl, rfl⟩
      · split at hb
        · cases hb; exact ⟨rfl, rfl⟩
        · cases hb
    · cases hb

theorem keyInv_step (wd : World) (op : Op) (h : KeyInv wd) :
    KeyInv (applyOp wd op) := by
  cases op with
  | brk pos pp =>
    rcases break_block_cases wd pos pp with heq | ⟨b, hb, hbr, hd2, hls, heq⟩
    · simpa only [applyOp, heq] using h
    · intro c bb hbb
      simp only [applyOp, heq] at hbb
      by_cases hc : c = (pos.1.fdiv BLOCK_SIZE, pos.2.fdiv BLOCK_SIZE)
      · rw [if_pos hc] at hbb; cases hbb
      · rw [if_neg hc] at hbb; exact h c bb hbb
  | plc pos pr ty =>
    rcases place_block_cases wd pos pr ty with heq | ⟨hnone, hadj1, hcol1, heq⟩
    · simpa only [applyOp, heq] using h
    · intro c bb hbb
      simp only [applyOp, heq] at hbb
      by_cases hc : c = (pos.1.fdiv BLOCK_SIZE, pos.2.fdiv BLOCK_SIZE)
      · rw [if_pos hc] at hbb
        cases hbb
        rw [hc]
        exact ⟨rfl, rfl⟩
      · rw [if_neg hc] at hbb; exact h c bb hbb

theorem keyInv_reachable (wd : World) (h : Reachable wd) : KeyInv wd :=
  reachable_rec keyInv_init keyInv_step wd h

/-- A grid cell inside the world's rectangular domain. -/
def InDomain (c : Int × Int) : Prop :=
  0 ≤ c.1 ∧ c.1 < WORLD_WIDTH ∧ 0 ≤ c.2 ∧ c.2 < WORLD_HEIGHT

/-- The target cell of a place_block call (break_block never adds keys). -/
def Op.placeInDomain : Op → Prop
  | .brk _ _ => True
  | .plc pos _ _ => InDomain (pos.1.fdiv BLOCK_SIZE, pos.2.fdiv BLOCK_SIZE)

theorem domInit (rnd : Nat → Int) (c : Int × Int)
    (h : (worldInit rnd).blocks c ≠ none) : InDomain c := by
  simp only [worldInit, addBedrockBorders, terrainBlocks, WORLD_WIDTH, WORLD_HEIGHT] at h
  simp only [InDomain, WORLD_WIDTH, WORLD_HEIGHT]
  split at h
  · rename_i hbed
    omega
  · split at h
    · rename_i hdom
      omega
    · exact absurd rfl h

theorem domStep (wd : World) (op : Op) (hop : op.placeInDomain)
    (h : ∀ c, wd.blocks c ≠ none → InDomain c) :
    ∀ c, (applyOp wd op).blocks c ≠ none → InDomain c := by
  cases op with
  | brk pos pp =>
    rcases break_block_cases wd pos pp with heq | ⟨b, hb, hbr, hd2, hls, heq⟩
    · simpa only [applyOp, heq] using h
    · intro c hc
      simp only [applyOp, heq] at hc
      by_cases hceq : c = (pos.1.fdiv BLOCK_SIZE, pos.2.fdiv BLOCK_SIZE)
      · rw [if_pos hceq] at hc; exact absurd rfl hc
      · rw [if_neg hceq] at hc; exact h c hc
  | plc pos pr ty =>
    rcases place_block_cases wd pos pr ty with heq | ⟨hnone, hadj1, hcol1, heq⟩
    · simpa only [applyOp, heq] using h
    · intro c hc
      simp only [applyOp, heq] at hc
      by_cases hceq : c = (pos.1.fdiv BLOCK_SIZE, pos.2.fdiv BLOCK_SIZE)
      · rw [hceq]; exact hop
      · rw [if_neg hceq] at hc; exact h c hc

theorem scanCol_spec (wd : World) (x : Int) :
    ∀ fuel y r, scanCol wd x y fuel = some r →
      y ≤ r ∧ r < y + fuel ∧ wd.occupied (x, (r : Int)) = true ∧
      ∀ z : Nat, y ≤ z → z < r → wd.occupied (x, (z : Int)) = false := by
  intro fuel
  induction fuel with
  | zero => intro y r h; simp [scanCol] at h
  | succ n ih =>
    intro y r h
    simp only [scanCol] at h
    by_cases hocc : wd.occupied (x, (y : Int)) = true
    · rw [if_pos hocc] at h
      cases h
      exact ⟨le_refl _, by omega, hocc, fun z hz1 hz2 => (by omega : False).elim⟩
    · rw [if_neg hocc] at h
      obtain ⟨h1, h2, h3, h4⟩ := ih (y + 1) r h
      rw [Bool.not_eq_true] at hocc
      refine ⟨by omega, by omega, h3, ?_⟩
      intro z hz1 hz2
      by_cases hzy : z = y
      · rw [hzy]; exact hocc
      · exact h4 z (by omega) hz2

theorem scanCol_isSome (wd : World) (x : Int) :
    ∀ (fuel y z : Nat), y ≤ z → z < y + fuel → wd.occupied (x, (z : Int)) = true →
      (scanCol wd x y fuel).isSome = true := by
  intro fuel
  induction fuel with
  | zero => intro y z h1 h2 _; exact (by omega : False).elim
  | succ n ih =>
    intro y z h1 h2 hocc
    simp only [scanCol]
    by_cases hy : wd.occupied (x, (y : Int)) = true
    · rw [if_pos hy]; rfl
    · rw [if_neg hy]
      refine ih (y + 1) z ?_ (by omega) hocc
      by_cases hzy : z = y
      · rw [hzy] at hocc; exact absurd hocc hy
      · omega

theorem mem_rangeInt {a b x : Int} : x ∈ rangeInt a b ↔ a ≤ x ∧ x < b := by
  simp only [rangeInt, List.mem_map, List.mem_range]
  constructor
  · rintro ⟨i, hi, rfl⟩; omega
  · rintro ⟨h1, h2⟩; exact ⟨(x - a).toNat, by omega, by omega⟩

/-- check_collision finds a hit exactly when some cell of the clamped
window holds a block whose rectangle strictly overlaps the query. -/
theorem check_collision_iff (wd : World) (r : Rect) :
    check_collision wd r = true ↔
    ∃ x y b, max 0 (r.left.fdiv BLOCK_SIZE) ≤ x ∧
      x < min WORLD_WIDTH (r.right.fdiv BLOCK_SIZE + 1) ∧
      max 0 (r.top.fdiv BLOCK_SIZE) ≤ y ∧
      y < min WORLD_HEIGHT (r.bottom.fdiv BLOCK_SIZE + 1) ∧
      wd.blocks (x, y) = some b ∧ rectsCollide r b.rect = true := by
  constructor
  · intro h
    simp only [check_collision, List.any_eq_true] at h
    obtain ⟨x, hxmem, y, hymem, hcell⟩ := h
    rw [mem_rangeInt] at hxmem hymem
    cases hb : wd.blocks (x, y) with
    | none => rw [hb] at hcell; exact absurd hcell (by simp)
    | some b =>
      rw [hb] at hcell
      exact ⟨x, y, b, hxmem.1, hxmem.2, hymem.1, hymem.2, hb, hcell⟩
  · rintro ⟨x, y, b, hx1, hx2, hy1, hy2, hb, hc⟩
    simp only [check_collision, List.any_eq_true]
    exact ⟨x, mem_rangeInt.mpr ⟨hx1, hx2⟩, y, mem_rangeInt.mpr ⟨hy1, hy2⟩,
      by rw [hb]; exact hc⟩

/-- The destination cell is never among the cells the stepping walk visits. -/
theorem losPath_dest_not_mem (sx sy ex ey : Int) :
    (ex.fdiv BLOCK_SIZE, ey.fdiv BLOCK_SIZE) ∉ losPath sx sy ex ey := by
  simp only [losPath]
  by_cases hf : (sx.fdiv BLOCK_SIZE - ex.fdiv BLOCK_SIZE).natAbs ≤ 1 ∧
      (sy.fdiv BLOCK_SIZE - ey.fdiv BLOCK_SIZE).natAbs ≤ 1
  · rw [if_pos hf]; simp
  · rw [if_neg hf]
    by_cases hd : ((ey.fdiv BLOCK_SIZE - sy.fdiv BLOCK_SIZE).natAbs <
        (ex.fdiv BLOCK_SIZE - sx.fdiv BLOCK_SIZE).natAbs)
    · rw [if_pos hd]
      intro hmem
      exact losCellsX_fst_ne _ _ _ _ _ _ _ _ _ _ hmem rfl
    · rw [if_neg hd]
      intro hmem
      exact losCellsY_snd_ne _ _ _ _ _ _ _ _ _ _ hmem rfl

/-! ## Claim theorems -/

/-- Claim C1 (corrected), counterexample: a state reachable by construction
followed by one place_block call whose mapping contains the key (-1, 5),
outside the domain. place_block performs no bounds check; the border
bedrock at (0, 5) satisfies its adjacency test, the player (cell (0, 4))
is in range, and the fast path clears line of sight. -/
theorem c1_counterexample :
    Reachable w1 ∧ w1.blocks (-1, 5) ≠ none ∧ ¬ (0 ≤ (-1 : Int)) :=
  ⟨⟨zeroRnd, [Op.plc (-20, 165) rectC04 "dirt"], rfl⟩, by decide, by decide⟩

/-- Claim C1 (corrected as amended): every key of the constructed mapping is
in-domain and break_block never adds keys, but place_block inserts at
whatever cell its target floor-divides to; the domain invariant therefore
holds for exactly those call sequences whose place_block targets lie in the
domain. -/
theorem c1_amended (rnd : Nat → Int) (ops : List Op)
    (hops : ∀ op ∈ ops, op.placeInDomain) :
    ∀ c, (applyOps (worldInit rnd) ops).blocks c ≠ none → InDomain c := by
  suffices hgen : ∀ (l : List Op) (w : World), (∀ op ∈ l, op.placeInDomain) →
      (∀ c, w.blocks c ≠ none → InDomain c) →
      ∀ c, (applyOps w l).blocks c ≠ none → InDomain c by
    exact hgen ops (worldInit rnd) hops (domInit rnd)
  intro l
  induction l with
  | nil => intro w _ hw; exact hw
  | cons o t ih =>
    intro w hl hw
    exact ih (applyOp w o) (fun op hop => hl op (List.mem_cons_of_mem _ hop))
      (domStep w o (hl o (List.mem_cons_self _ _)) hw)

theorem c1_amended_witness : InDomain (0, 0) :=
  c1_amended zeroRnd [] (fun op hop => absurd hop (List.not_mem_nil op)) (0, 0) (by decide)

/-- Claim C2 (corrected), counterexample: in the freshly constructed world
`w0` (all random steps 0, so the grass surface is row 25), sight from the
center of cell (2, 24) to the center of cell (4, 25) is clear, but the
reverse direction is blocked: the walk tests its own starting cell, and
(4, 25) holds grass. The claimed symmetry fails. -/
theorem c2_counterexample :
    check_line_of_sight w0 80 784 144 816 ≠ check_line_of_sight w0 144 816 80 784 := by
  decide

/-- Claim C2 (corrected as amended): symmetry holds whenever the two grid
cells are within Chebyshev distance 1 — both directions then answer true
through the fast path. Beyond it the stepping walk is direction-dependent
and symmetry can fail. -/
theorem c2_amended (wd : World) (sx sy ex ey : Int)
    (h1 : (sx.fdiv BLOCK_SIZE - ex.fdiv BLOCK_SIZE).natAbs ≤ 1)
    (h2 : (sy.fdiv BLOCK_SIZE - ey.fdiv BLOCK_SIZE).natAbs ≤ 1) :
    check_line_of_sight wd sx sy ex ey = true ∧
    check_line_of_sight wd ex ey sx sy = true := by
  constructor
  · simp only [check_line_of_sight]
    rw [if_pos ⟨h1, h2⟩]
  · simp only [check_line_of_sight]
    rw [if_pos ⟨by omega, by omega⟩]

theorem c2_amended_witness :
    check_line_of_sight w0 100 100 110 110 = true ∧
    check_line_of_sight w0 110 110 100 100 = true :=
  c2_amended w0 100 100 110 110 (by decide) (by decide)

/-- Claim C3 (corrected), counterexample: from the center of the occupied
grass cell (5, 25) to the center of (5, 22). The fast path does not apply,
the walk visits [(5,25), (5,24), (5,23)], both non-endpoint visited cells
are empty, yet the result is false: the starting endpoint cell is tested,
so its occupancy alone does make the result false, contrary to the claim. -/
theorem c3_counterexample :
    chebAdj 176 816 176 720 = false ∧
    losPath 176 816 176 720 = [(5, 25), (5, 24), (5, 23)] ∧
    w0.blocks (5, 24) = none ∧ w0.blocks (5, 23) = none ∧
    w0.blocks (5, 25) ≠ none ∧
    check_line_of_sight w0 176 816 176 720 = false := by
  decide

/-- Claim C3 (corrected as amended): check_line_of_sight converts both
points to grid cells and returns true unconditionally within Chebyshev
distance 1; otherwise it returns false iff some cell visited by the
stepping walk is occupied, where the visited cells exclude the destination
cell but include the starting cell. -/
theorem c3_amended (wd : World) (sx sy ex ey : Int) :
    (chebAdj sx sy ex ey = true → check_line_of_sight wd sx sy ex ey = true) ∧
    (chebAdj sx sy ex ey = false →
      (check_line_of_sight wd sx sy ex ey = false ↔
        ∃ c ∈ losPath sx sy ex ey, wd.occupied c = true)) ∧
    (ex.fdiv BLOCK_SIZE, ey.fdiv BLOCK_SIZE) ∉ losPath sx sy ex ey := by
  refine ⟨?_, ?_, losPath_dest_not_mem sx sy ex ey⟩
  · intro hc
    rw [los_check_eq, hc, Bool.true_or]
  · intro hc
    rw [los_check_eq, hc, Bool.false_or]
    constructor
    · intro hall
      rw [List.all_eq_false] at hall
      obtain ⟨c, hm, hnp⟩ := hall
      refine ⟨c, hm, ?_⟩
      revert hnp
      cases wd.occupied c <;> simp
    · rintro ⟨c, hm, hocc⟩
      rw [List.all_eq_false]
      exact ⟨c, hm, by simp [hocc]⟩

theorem c3_amended_witness :
    check_line_of_sight w0 176 816 176 720 = false :=
  ((c3_amended w0 176 816 176 720).2.1 (by decide)).mpr
    ⟨(5, 25), by decide, by decide⟩

/-- Claim C4 (confirmed): after construction, every in-domain cell with
x = 0, x = WORLD_WIDTH-1 or y = WORLD_HEIGHT-1 holds a Bedrock block whose
is_breakable is false, and this persists under any sequence of break_block
and place_block calls: break_block refuses unbreakable blocks and
place_block never overwrites an occupied cell. -/
theorem c4_border_bedrock (wd : World) (h : Reachable wd) (x y : Int)
    (hx0 : 0 ≤ x) (hxW : x < WORLD_WIDTH) (hy0 : 0 ≤ y) (hyH : y < WORLD_HEIGHT)
    (hb : x = 0 ∨ x = WORLD_WIDTH - 1 ∨ y = WORLD_HEIGHT - 1) :
    ∃ b : Block, wd.blocks (x, y) = some b ∧ b.block_type = "bedrock" ∧
      b.is_breakable = false :=
  ⟨⟨x, y, "bedrock"⟩, borderInv_reachable wd h x y hx0 hxW hy0 hyH hb, rfl,
    by simp [Block.is_breakable]⟩

theorem c4_border_bedrock_witness :
    ∃ b : Block, w0.blocks (0, 0) = some b ∧ b.block_type = "bedrock" ∧
      b.is_breakable = false :=
  c4_border_bedrock w0 ⟨zeroRnd, [], rfl⟩ 0 0 (by decide) (by decide)
    (by decide) (by decide) (Or.inl rfl)

/-- Claim C5 (confirmed): for every source of randomness (each drawn step
lying in [-1, 1], as random.randint(-1, 1) guarantees), every height of the
terrain walk lies in [WORLD_HEIGHT/3, WORLD_HEIGHT-10] — the clamp applied
after each step starting from WORLD_HEIGHT/2 — and adjacent columns differ
by at most 1. -/
theorem c5_terrain_heights (rnd : Nat → Int)
    (h : ∀ i, -1 ≤ rnd i ∧ rnd i ≤ 1) :
    (∀ n, WORLD_HEIGHT.fdiv 3 ≤ heightAt rnd n ∧
      heightAt rnd n ≤ WORLD_HEIGHT - 10) ∧
    (∀ n, (heightAt rnd (n + 1) - heightAt rnd n).natAbs ≤ 1) := by
  have hf3 : (50 : Int).fdiv 3 = 16 := by decide
  have hf2 : (50 : Int).fdiv 2 = 25 := by decide
  have hbnd : ∀ n, WORLD_HEIGHT.fdiv 3 ≤ heightAt rnd n ∧
      heightAt rnd n ≤ WORLD_HEIGHT - 10 := by
    intro n
    cases n with
    | zero =>
      have h0 := h 0
      simp only [heightAt, WORLD_HEIGHT, hf3, hf2]
      omega
    | succ m =>
      have hm := h (m + 1)
      simp only [heightAt, WORLD_HEIGHT, hf3]
      omega
  refine ⟨hbnd, ?_⟩
  intro n
  have h1 := hbnd n
  have h2 := h (n + 1)
  simp only [WORLD_HEIGHT, hf3] at h1
  conv_lhs => rw [show heightAt rnd (n + 1) =
    max (WORLD_HEIGHT.fdiv 3) (min (heightAt rnd n + rnd (n + 1))
      (WORLD_HEIGHT - 10)) from rfl]
  simp only [WORLD_HEIGHT, hf3]
  omega

theorem c5_terrain_heights_witness :
    (WORLD_HEIGHT.fdiv 3 ≤ heightAt zeroRnd 0 ∧
      heightAt zeroRnd 0 ≤ WORLD_HEIGHT - 10) ∧
    (heightAt zeroRnd 1 - heightAt zeroRnd 0).natAbs ≤ 1 :=
  ⟨(c5_terrain_heights zeroRnd
      (fun _ => ⟨show (-1 : Int) ≤ 0 by decide, show (0 : Int) ≤ 1 by decide⟩)).1 0,
   (c5_terrain_heights zeroRnd
      (fun _ => ⟨show (-1 : Int) ≤ 0 by decide, show (0 : Int) ≤ 1 by decide⟩)).2 0⟩

/-- Claim C6 (confirmed): break_block either leaves the mapping unchanged or
removes exactly the target entry (which must have been present and
breakable), leaving all others; it is a no-op whenever the target cell is
empty, holds an unbreakable block, lies at squared cell distance above 9
(Euclidean distance above 3), or line of sight fails. The embedded
function is total: no error path exists. -/
theorem c6_break_no_op (wd : World) (pos pp : Int × Int) :
    ((break_block wd pos pp = wd) ∨
      (wd.blocks (pos.1.fdiv BLOCK_SIZE, pos.2.fdiv BLOCK_SIZE) ≠ none ∧
       (break_block wd pos pp).blocks
         (pos.1.fdiv BLOCK_SIZE, pos.2.fdiv BLOCK_SIZE) = none ∧
       ∀ c, c ≠ (pos.1.fdiv BLOCK_SIZE, pos.2.fdiv BLOCK_SIZE) →
         (break_block wd pos pp).blocks c = wd.blocks c)) ∧
    (wd.blocks (pos.1.fdiv BLOCK_SIZE, pos.2.fdiv BLOCK_SIZE) = none →
      break_block wd pos pp = wd) ∧
    (∀ b, wd.blocks (pos.1.fdiv BLOCK_SIZE, pos.2.fdiv BLOCK_SIZE) = some b →
      b.is_breakable = false → break_block wd pos pp = wd) ∧
    ((pos.1.fdiv BLOCK_SIZE - pp.1.fdiv BLOCK_SIZE) ^ 2 +
       (pos.2.fdiv BLOCK_SIZE - pp.2.fdiv BLOCK_SIZE) ^ 2 > 9 →
      break_block wd pos pp = wd) ∧
    (check_line_of_sight wd pp.1 pp.2
        (pos.1.fdiv BLOCK_SIZE * BLOCK_SIZE + BLOCK_SIZE.fdiv 2)
        (pos.2.fdiv BLOCK_SIZE * BLOCK_SIZE + BLOCK_SIZE.fdiv 2) = false →
      break_block wd pos pp = wd) := by
  rcases break_block_cases wd pos pp with heq | ⟨b, hb, hbr, hd2, hls, heq⟩
  · exact ⟨Or.inl heq, fun _ => heq, fun _ _ _ => heq, fun _ => heq, fun _ => heq⟩
  · refine ⟨Or.inr ⟨by rw [hb]; exact Option.some_ne_none b, ?_, ?_⟩,
      ?_, ?_, ?_, ?_⟩
    · rw [heq]; simp
    · intro c hc
      rw [heq]
      simp only [if_neg hc]
    · intro hnone; rw [hnone] at hb; cases hb
    · intro b' hb' hbr'
      rw [hb] at hb'
      cases hb'
      rw [hbr] at hbr'
      cases hbr'
    · intro hfar; exact absurd hfar hd2
    · intro hlosf; rw [hls] at hlosf; cases hlosf

theorem c6_break_no_op_witness : break_block w0 (165, 165) (100, 100) = w0 :=
  (c6_break_no_op w0 (165, 165) (100, 100)).2.1 (by decide)

/-- Claim C7 (corrected), counterexample: target cell (1, 24) is empty, has
the occupied neighbour (1, 25), the player's cell distance is 0 and line of
sight is clear — every success condition the claim lists — yet place_block
rejects the request, because the candidate block's rectangle overlaps the
player's rectangle (which covers the target cell): the claim omits the
player-overlap check. -/
theorem c7_counterexample :
    w0.blocks (1, 24) = none ∧
    has_adjacent_block w0 1 24 = true ∧
    ((1 : Int) - (Rect.centerx ⟨32, 768, 32, 32⟩).fdiv BLOCK_SIZE) ^ 2 +
      ((24 : Int) - (Rect.centery ⟨32, 768, 32, 32⟩).fdiv BLOCK_SIZE) ^ 2 ≤ 9 ∧
    check_line_of_sight w0 (Rect.centerx ⟨32, 768, 32, 32⟩)
      (Rect.centery ⟨32, 768, 32, 32⟩)
      (1 * BLOCK_SIZE + BLOCK_SIZE.fdiv 2) (24 * BLOCK_SIZE + BLOCK_SIZE.fdiv 2) = true ∧
    (place_block w0 (33, 769) ⟨32, 768, 32, 32⟩ "dirt").blocks (1, 24) = none := by
  decide

/-- Claim C7 (corrected as amended): place_block rejects a target with no
occupied 8-neighbour and never overwrites an occupied cell; when the target
cell is empty, at least one 8-neighbour is occupied, the new block's
rectangle does not overlap the player's rectangle, and the range and
line-of-sight checks pass, it inserts exactly one block of the requested
type at the target cell. -/
theorem c7_place_amended (wd : World) (pos : Int × Int) (pr : Rect) (ty : String) :
    (has_adjacent_block wd (pos.1.fdiv BLOCK_SIZE) (pos.2.fdiv BLOCK_SIZE) = false →
      place_block wd pos pr ty = wd) ∧
    (wd.blocks (pos.1.fdiv BLOCK_SIZE, pos.2.fdiv BLOCK_SIZE) ≠ none →
      place_block wd pos pr ty = wd) ∧
    (wd.blocks (pos.1.fdiv BLOCK_SIZE, pos.2.fdiv BLOCK_SIZE) = none →
      has_adjacent_block wd (pos.1.fdiv BLOCK_SIZE) (pos.2.fdiv BLOCK_SIZE) = true →
      would_collide_with_player (pos.1.fdiv BLOCK_SIZE) (pos.2.fdiv BLOCK_SIZE) pr = false →
      (pos.1.fdiv BLOCK_SIZE - pr.centerx.fdiv BLOCK_SIZE) ^ 2 +
        (pos.2.fdiv BLOCK_SIZE - pr.centery.fdiv BLOCK_SIZE) ^ 2 ≤ 9 →
      check_line_of_sight wd pr.centerx pr.centery
        (pos.1.fdiv BLOCK_SIZE * BLOCK_SIZE + BLOCK_SIZE.fdiv 2)
        (pos.2.fdiv BLOCK_SIZE * BLOCK_SIZE + BLOCK_SIZE.fdiv 2) = true →
      (place_block wd pos pr ty).blocks (pos.1.fdiv BLOCK_SIZE, pos.2.fdiv BLOCK_SIZE) =
        some ⟨pos.1.fdiv BLOCK_SIZE, pos.2.fdiv BLOCK_SIZE, ty⟩ ∧
      ∀ c, c ≠ (pos.1.fdiv BLOCK_SIZE, pos.2.fdiv BLOCK_SIZE) →
        (place_block wd pos pr ty).blocks c = wd.blocks c) := by
  refine ⟨?_, ?_, ?_⟩
  · intro hadj
    by_cases hocc : wd.occupied (pos.1.fdiv BLOCK_SIZE, pos.2.fdiv BLOCK_SIZE)
    · simp only [place_block]
      rw [if_pos hocc]
    · simp only [place_block]
      rw [if_neg hocc, if_pos (by rw [hadj]; exact Bool.false_ne_true)]
  · intro hne
    have hocc : wd.occupied (pos.1.fdiv BLOCK_SIZE, pos.2.fdiv BLOCK_SIZE) = true := by
      simp only [World.occupied, Option.isSome_iff_ne_none]
      exact hne
    simp only [place_block]
    rw [if_pos hocc]
  · intro hnone hadj hcol hdist hlos
    have hocc : ¬ wd.occupied (pos.1.fdiv BLOCK_SIZE, pos.2.fdiv BLOCK_SIZE) = true := by
      simp [World.occupied, hnone]
    have hres : place_block wd pos pr ty =
        ⟨fun c => if c = (pos.1.fdiv BLOCK_SIZE, pos.2.fdiv BLOCK_SIZE) then
                    some ⟨pos.1.fdiv BLOCK_SIZE, pos.2.fdiv BLOCK_SIZE, ty⟩
                  else wd.blocks c⟩ := by
      simp only [place_block]
      rw [if_neg hocc, if_neg (by rw [hadj]; exact not_not_intro rfl),
        if_neg (by rw [hcol]; exact Bool.false_ne_true),
        if_neg (by omega), if_neg (by rw [hlos]; exact not_not_intro rfl)]
    rw [hres]
    constructor
    · simp
    · intro c hc
      simp only [if_neg hc]

theorem c7_place_amended_witness :
    (place_block w0 (33, 769) ⟨40, 744, 16, 16⟩ "dirt").blocks (1, 24) =
      some ⟨1, 24, "dirt"⟩ :=
  ((c7_place_amended w0 (33, 769) ⟨40, 744, 16, 16⟩ "dirt").2.2
    (by decide) (by decide) (by decide) (by decide) (by decide)).1

/-- Claim C8 (corrected), counterexample: in the reachable world `w1` the
out-of-domain cell (-1, 5) is occupied, yet the rectangle exactly
coinciding with that block's rectangle does not collide: the clamped
search window never reaches cells left of column 0. -/
theorem c8_counterexample :
    Reachable w1 ∧
    w1.blocks (-1, 5) = some ⟨-1, 5, "dirt"⟩ ∧
    Block.rect ⟨-1, 5, "dirt"⟩ = ⟨-32, 160, 32, 32⟩ ∧
    check_collision w1 ⟨-32, 160, 32, 32⟩ = false :=
  ⟨⟨zeroRnd, [Op.plc (-20, 165) rectC04 "dirt"], rfl⟩, by decide, by decide, by decide⟩

/-- Claim C8 (corrected as amended): a rectangle that intersects no stored
block's rectangle never collides (for any world state); a rectangle exactly
coinciding with the block rectangle of an occupied in-domain cell of a
reachable world always collides. Occupied cells outside the domain fall
outside the clamped search window and are not detected. -/
theorem c8_amended (wd : World) (r : Rect) (x y : Int) (b : Block) :
    ((∀ c bb, wd.blocks c = some bb → rectsCollide r bb.rect = false) →
      check_collision wd r = false) ∧
    (Reachable wd → 0 ≤ x → x < WORLD_WIDTH → 0 ≤ y → y < WORLD_HEIGHT →
      wd.blocks (x, y) = some b → check_collision wd b.rect = true) := by
  constructor
  · intro hno
    cases hcc : check_collision wd r with
    | false => rfl
    | true =>
      exfalso
      obtain ⟨x', y', b', _, _, _, _, hb', hcol⟩ := (check_collision_iff wd r).mp hcc
      rw [hno (x', y') b' hb'] at hcol
      cases hcol
  · intro hr hx0 hxW hy0 hyH hb
    obtain ⟨hbx, hby⟩ := keyInv_reachable wd hr (x, y) b hb
    have h32 : (32 : Int) ≠ 0 := by decide
    have hleft : (b.rect).left.fdiv BLOCK_SIZE = x := by
      simp only [Block.rect, Rect.left, hbx, BLOCK_SIZE]
      exact Int.mul_fdiv_cancel x h32
    have hright : (b.rect).right.fdiv BLOCK_SIZE = x + 1 := by
      simp only [Block.rect, Rect.right, hbx, BLOCK_SIZE]
      rw [show x * 32 + 32 = (x + 1) * 32 by ring, Int.mul_fdiv_cancel _ h32]
    have htop : (b.rect).top.fdiv BLOCK_SIZE = y := by
      simp only [Block.rect, Rect.top, hby, BLOCK_SIZE]
      exact Int.mul_fdiv_cancel y h32
    have hbot : (b.rect).bottom.fdiv BLOCK_SIZE = y + 1 := by
      simp only [Block.rect, Rect.bottom, hby, BLOCK_SIZE]
      rw [show y * 32 + 32 = (y + 1) * 32 by ring, Int.mul_fdiv_cancel _ h32]
    apply (check_collision_iff wd b.rect).mpr
    refine ⟨x, y, b, ?_, ?_, ?_, ?_, hb, ?_⟩
    · rw [hleft]; omega
    · rw [hright]
      simp only [WORLD_WIDTH] at hxW ⊢
      omega
    · rw [htop]; omega
    · rw [hbot]
      simp only [WORLD_HEIGHT] at hyH ⊢
      omega
    · simp only [rectsCollide, Block.rect, BLOCK_SIZE, Bool.and_eq_true,
        decide_eq_true_eq]
      refine ⟨⟨⟨?_, ?_⟩, ?_⟩, ?_⟩ <;> omega

theorem c8_amended_witness :
    check_collision w0 (Block.rect ⟨1, 25, "grass"⟩) = true :=
  (c8_amended w0 ⟨0, 0, 0, 0⟩ 1 25 ⟨1, 25, "grass"⟩).2 ⟨zeroRnd, [], rfl⟩
    (by decide) (by decide) (by decide) (by decide) (by decide)

/-- Claim C9 (confirmed): whenever the movement phase of Player.update
leaves the player's vertical position beyond WORLD_HEIGHT * BLOCK_SIZE, the
update respawns the player — position set exactly to the spawn coordinates,
both velocity components zeroed; otherwise the update returns the moved
state untouched, so the respawn transition is the only reset path. -/
theorem c9_respawn (wd : World) (keys : Keys) (p : PlayerState) :
    ((updateMoved wd keys p).rect.y > WORLD_HEIGHT * BLOCK_SIZE →
      (Player.update wd keys p).rect.x = p.spawn_x ∧
      (Player.update wd keys p).rect.y = p.spawn_y ∧
      (Player.update wd keys p).velocity_x = 0 ∧
      (Player.update wd keys p).velocity_y = 0) ∧
    ((updateMoved wd keys p).rect.y ≤ WORLD_HEIGHT * BLOCK_SIZE →
      Player.update wd keys p = updateMoved wd keys p) := by
  constructor
  · intro h
    simp only [Player.update, if_pos h, respawn]
    exact ⟨rfl, rfl, trivial, trivial⟩
  · intro h
    simp only [Player.update]
    rw [if_neg (by omega)]

theorem c9_respawn_witness :
    (Player.update w0 keysNone pDeep).rect.x = pDeep.spawn_x ∧
    (Player.update w0 keysNone pDeep).rect.y = pDeep.spawn_y ∧
    (Player.update w0 keysNone pDeep).velocity_x = 0 ∧
    (Player.update w0 keysNone pDeep).velocity_y = 0 :=
  (c9_respawn w0 keysNone pDeep).1 (of_decide_eq_true (by with_unfolding_all rfl))

/-- Claim C10 (corrected), counterexample: the reachable world `wNegY` has
the occupied cell (1, -1) (placed above the world through the bedrock
corner), and get_surface_height for column 1 returns 25 even though the
occupied row -1 is smaller: rows at negative y are outside the scan. -/
theorem c10_counterexample :
    Reachable wNegY ∧ wNegY.blocks (1, -1) ≠ none ∧
    get_surface_height wNegY 1 = 25 ∧ (-1 : Int) < 25 :=
  ⟨⟨zeroRnd, [Op.plc (33, -20) rectC00 "dirt"], rfl⟩, by decide, by decide, by decide⟩

/-- Claim C10 (corrected as amended): in every reachable state, every
in-domain column keeps its bottom bedrock cell, so the scan of
get_surface_height always finds an occupied row — the fallback branch and
its value are unreachable for in-domain columns — and the result is the
least occupied row within the scanned range 0 ≤ y < WORLD_HEIGHT
(place_block can create occupied cells at negative y, which the scan never
visits). -/
theorem c10_amended (wd : World) (h : Reachable wd) (x : Int)
    (hx0 : 0 ≤ x) (hxW : x < WORLD_WIDTH) :
    wd.blocks (x, WORLD_HEIGHT - 1) ≠ none ∧
    0 ≤ get_surface_height wd x ∧ get_surface_height wd x < WORLD_HEIGHT ∧
    wd.occupied (x, get_surface_height wd x) = true ∧
    ∀ z : Int, 0 ≤ z → z < get_surface_height wd x → wd.blocks (x, z) = none := by
  have hbed := borderInv_reachable wd h x (WORLD_HEIGHT - 1) hx0 hxW
    (by decide) (by decide) (Or.inr (Or.inr rfl))
  have hocc49 : wd.occupied (x, ((49 : Nat) : Int)) = true := by
    rw [show (((49 : Nat) : Int)) = WORLD_HEIGHT - 1 by decide, World.occupied, hbed]
    rfl
  have hsome : (scanCol wd x 0 WORLD_HEIGHT.toNat).isSome = true :=
    scanCol_isSome wd x WORLD_HEIGHT.toNat 0 49 (by omega)
      (by simp only [WORLD_HEIGHT, Int.toNat_ofNat]; omega) hocc49
  obtain ⟨r, hr⟩ := Option.isSome_iff_exists.mp hsome
  obtain ⟨hr0, hrH, hrocc, hrmin⟩ := scanCol_spec wd x WORLD_HEIGHT.toNat 0 r hr
  have hgs : get_surface_height wd x = (r : Int) := by
    simp only [get_surface_height, hr]
  have hHt : WORLD_HEIGHT.toNat = 50 := rfl
  rw [hHt] at hrH
  rw [hgs]
  refine ⟨by rw [hbed]; exact Option.some_ne_none _, by omega, ?_, hrocc, ?_⟩
  · simp only [WORLD_HEIGHT]
    omega
  · intro z hz0 hzr
    have hzt := hrmin z.toNat (by omega) (by omega)
    rw [show ((z.toNat : Nat) : Int) = z by omega] at hzt
    cases hb : wd.blocks (x, z) with
    | none => rfl
    | some bb =>
      rw [World.occupied, hb] at hzt
      cases hzt

theorem c10_amended_witness :
    w0.blocks (1, WORLD_HEIGHT - 1) ≠ none ∧
    w0.occupied (1, get_surface_height w0 1) = true :=
  ⟨(c10_amended w0 ⟨zeroRnd, [], rfl⟩ 1 (by decide) (by decide)).1,
   (c10_amended w0 ⟨zeroRnd, [], rfl⟩ 1 (by decide) (by decide)).2.2.2.1⟩

end Mine2D
